import Mathlib

/-!
Verification of the area-manipulation core of morphman
(src/morphman/manipulate_area.py, helpers from src/morphman/common/vtk_wrapper.py).

The embedding models machine floats as real numbers; decimal literals are exact
rationals.  VTK point containers are lists, the point locator is an argmin over
squared distances with a deterministic (first-index) tie break, and Python
exceptions are an explicit error type threaded through `Except`.
-/

namespace Morphman

/-- A 3-D point (one vtk point tuple). -/
structure Point3 where
  x : ℝ
  y : ℝ
  z : ℝ

instance : Inhabited Point3 := ⟨⟨0, 0, 0⟩⟩

/-- Componentwise addition of point tuples (numpy `+` on a length-3 array). -/
def Point3.add (p q : Point3) : Point3 := ⟨p.x + q.x, p.y + q.y, p.z + q.z⟩

/-- Componentwise subtraction (numpy `-` on a length-3 array). -/
def Point3.sub (p q : Point3) : Point3 := ⟨p.x - q.x, p.y - q.y, p.z - q.z⟩

/-- Scalar multiplication (numpy scalar `*` array). -/
def Point3.smul (c : ℝ) (p : Point3) : Point3 := ⟨c * p.x, c * p.y, c * p.z⟩

/-- Squared Euclidean distance between two points. -/
def sqDist (p q : Point3) : ℝ := (p.x - q.x) ^ 2 + (p.y - q.y) ^ 2 + (p.z - q.z) ^ 2

/-- One sample of the centerline `line_to_change`: its position together with the
value of the "CenterlineSectionArea" point-data array at that sample
(`get_point_data_array` in vtk_wrapper.py reads one tuple per point, so the area
array is aligned with the points by construction). -/
structure CLPoint where
  pos : Point3
  sectionArea : ℝ

instance : Inhabited CLPoint := ⟨⟨default, 0⟩⟩

/-- One point of a Voronoi diagram: position plus the value of the
MaximumInscribedSphereRadius point-data array. -/
structure VPoint where
  pos : Point3
  radius : ℝ

instance : Inhabited VPoint := ⟨⟨default, 0⟩⟩

/-- One diverging branch, as change_area consumes it: the first point of its
centerline (`diverging_centerline[j].GetPoint(0)`) paired with its Voronoi points
(`diverging_voronoi[j]`).  The caller (manipulate_area) always supplies these two
lists paired, and supplies none of either when there is no diverging centerline,
so `diverging_centerline is not None` is modelled as this list being nonempty. -/
structure Branch where
  attachment : Point3
  cloud : List VPoint

/-- Python exceptions the modelled code can raise. -/
inductive PyErr
  /-- math.log on a nonpositive argument, or a numpy reduction of an empty array. -/
  | valueError
  /-- Division by zero on Python floats (`math.log(ratio) / math.log(R_old)` with `R_old == 1`). -/
  | zeroDivisionError
  /-- get_factor lines 160-189: falling through every method branch leaves `factor` unbound at `return factor`. -/
  | unboundLocalError
  /-- Indexing `area[0]` of an empty array in the two-point stenosis branch. -/
  | indexError
  /-- change_area line 255: `count = i + 1` with the main loop never entered. -/
  | nameError
deriving DecidableEq

open Classical in
/-- vtk_point_locator (vtkStaticPointLocator) + FindClosestPoint: the index of a
closest centerline sample.  Tie break between equidistant samples is unspecified
in VTK but deterministic; modelled as the first minimising index. -/
noncomputable def nearestId (line : List CLPoint) (p : Point3) : ℕ :=
  (List.range line.length).foldl
    (fun best i =>
      if sqDist (line.getD i default).pos p < sqDist (line.getD best default).pos p then i
      else best) 0

/-- Unnormalised weight of the discrete Gaussian kernel used by
scipy.ndimage.gaussian_filter with sigma = 5: exp(-j^2 / (2 sigma^2)),
window radius int(truncate * sigma + 0.5) = 20. -/
noncomputable def gWeight (j : ℤ) : ℝ := Real.exp (-(j : ℝ) ^ 2 / 50)

/-- Sum of the kernel weights over the window [-20, 20] (scipy normalises the
kernel by this sum). -/
noncomputable def gNorm : ℝ := ∑ j in Finset.Icc (-20 : ℤ) 20, gWeight j

/-- The scipy boundary mode "reflect": symmetric extension of the array about its
edges, which is periodic with period 2n. -/
def reflectIdx (n : ℕ) (z : ℤ) : ℕ :=
  if n = 0 then 0
  else
    let m := (z % (2 * (n : ℤ))).toNat
    if m < n then m else 2 * n - 1 - m

/-- One pass of gaussian_filter(area, 5) along the data axis.  The numpy array in
get_factor has shape (N, 1); filtering the trailing singleton axis with a
normalised kernel under reflect boundary conditions is the identity, so the
filter acts as this one-dimensional correlation. -/
noncomputable def smoothOnce (a : List ℝ) : List ℝ :=
  (List.range a.length).map fun (i : ℕ) =>
    ∑ j in Finset.Icc (-20 : ℤ) 20,
      (gWeight j / gNorm) * a.getD (reflectIdx a.length ((i : ℤ) - j)) 0

/-- The area array of get_factor after its two smoothing passes (lines 135-139). -/
noncomputable def smoothedArea (line : List CLPoint) : List ℝ :=
  smoothOnce (smoothOnce (line.map CLPoint.sectionArea))

/-- numpy mean; the mean of the empty array (numpy nan) is modelled as 0/0 = 0. -/
noncomputable def lmean (a : List ℝ) : ℝ := a.sum / a.length

/-- `mean_area` of get_factor line 140. -/
noncomputable def meanArea (line : List CLPoint) : ℝ := lmean (smoothedArea line)

/-- numpy `.max()`; every caller in the model guards the empty array, on which
numpy raises. -/
noncomputable def lmax : List ℝ → ℝ
  | [] => 0
  | x :: xs => xs.foldl max x

/-- numpy `.min()`; every caller in the model guards the empty array. -/
noncomputable def lmin : List ℝ → ℝ
  | [] => 0
  | x :: xs => xs.foldl min x

/-- Numpy linspace(a, b, k): k evenly spaced values from a to b, endpoints
included.  For k = 1 numpy returns [a], which the formula gives because x / 0 = 0
in the real-number model. -/
noncomputable def linspace (a b : ℝ) (k : ℕ) : List ℝ :=
  (List.range k).map fun (i : ℕ) => a + (b - a) * (i : ℝ) / ((k : ℝ) - 1)

/-- Python int(round(n * 0.10, 0)) of get_factor lines 144 and 156: the nearest
integer to n/10 with ties rounded to even (Python 3 banker rounding; the float
product n * 0.10 rounds to the exact tie value for the relevant magnitudes). -/
def kOf (n : ℕ) : ℕ :=
  if n % 10 < 5 then n / 10
  else if 5 < n % 10 then n / 10 + 1
  else if (n / 10) % 2 = 0 then n / 10 else n / 10 + 1

/-- The transition array of get_factor lines 142-158: a linear ramp of length
kOf n at both ends when the region of interest is manual or commandline and the
method is area or variation, a trailing ramp only for first_line, and all zeros
otherwise.  The code computes the two-sided array first and overwrites it in the
first_line case; as first_line is distinct from manual and commandline the two
formulations agree. -/
noncomputable def transArr (region_of_interest method : String) (n : ℕ) : List ℝ :=
  if region_of_interest = "first_line" then
    List.replicate (n - kOf n) 0 ++ linspace 0 1 (kOf n)
  else if (region_of_interest = "manual" ∨ region_of_interest = "commandline")
      ∧ (method = "area" ∨ method = "variation") then
    linspace 1 0 (kOf n) ++ List.replicate (n - 2 * kOf n) 0 ++ linspace 0 1 (kOf n)
  else
    List.replicate n 0

/-- Modelled from the spec: `get_curvilinear_coordinate` lives in
src/morphman/common/centerline_operations.py, which is not among the given
sources.  Spec section 3 describes it as the per-sample arc-length coordinate,
non-decreasing along the line; modelled as the cumulative Euclidean length of the
polyline up to each sample. -/
noncomputable def curvilinear (line : List CLPoint) : List ℝ :=
  (List.range line.length).map fun i =>
    ((List.range i).map fun j =>
      Real.sqrt (sqDist (line.getD j default).pos (line.getD (j + 1) default).pos)).sum

open Classical in
/-- The method-specific factor of get_factor lines 160-189 before the common
transition blend `factor_ * (1 - trans) + trans`, which every branch applies
identically and which `get_factor` below adds back.  Branches follow the source:
  * "variation" with a ratio: `R_old = area.max()/area.min()`,
    `beta = 0.5 * (math.log(ratio)/math.log(R_old) - 1)`, factor `(area/mean_area)**beta`;
    numpy raises ValueError on the empty reduction, math.log raises ValueError on a
    nonpositive argument, and the float division raises ZeroDivisionError when
    `math.log(R_old)` is zero, i.e. when `R_old == 1`;
  * "variation" without a ratio: factor `(area/mean_area)**beta` with the given beta;
  * "stenosis" with one region point (3 floats): `1 - sin(linspace(0, pi, N)) * percentage * 0.01`;
  * "stenosis" with two region points (6 floats): linear interpolation of the target
    area over normalised curvilinear coordinate, then a square root;
  * "area": `ones * (1 + percentage * 0.01)`;
  * any other method: `factor` is never assigned, so `return factor` raises
    UnboundLocalError. -/
noncomputable def rawFactor (line : List CLPoint) (method : String) (beta : ℝ)
    (ratio : Option ℝ) (percentage : ℝ) (region_points : List ℝ) :
    Except PyErr (List ℝ) :=
  if method = "variation" then
    match ratio with
    | some r =>
        if smoothedArea line = [] then .error .valueError
        else if r ≤ 0 then .error .valueError
        else if lmax (smoothedArea line) / lmin (smoothedArea line) ≤ 0 then .error .valueError
        else if lmax (smoothedArea line) / lmin (smoothedArea line) = 1 then
          .error .zeroDivisionError
        else
          .ok ((smoothedArea line).map fun a =>
            (a / meanArea line) ^
              (0.5 * (Real.log r /
                Real.log (lmax (smoothedArea line) / lmin (smoothedArea line)) - 1)))
    | none => .ok ((smoothedArea line).map fun a => (a / meanArea line) ^ beta)
  else if method = "stenosis" then
    if region_points.length = 3 then
      .ok ((linspace 0 Real.pi line.length).map fun t => 1 - Real.sin t * percentage * 0.01)
    else if region_points.length = 6 then
      if line.length = 0 then .error .indexError
      else
        .ok ((List.range line.length).map fun i =>
          Real.sqrt (((smoothedArea line).getD 0 0 +
            ((smoothedArea line).getD (line.length - 1) 0 - (smoothedArea line).getD 0 0) *
              ((curvilinear line).getD i 0 / lmax (curvilinear line))) /
            (smoothedArea line).getD i 0))
    else .error .unboundLocalError
  else if method = "area" then
    .ok (List.replicate line.length (1 + percentage * 0.01))
  else .error .unboundLocalError

/-- get_factor (manipulate_area.py lines 115-189): the method-specific factor
blended with the transition array, `factor_ * (1 - trans) + trans`. -/
noncomputable def get_factor (line : List CLPoint) (method : String) (beta : ℝ)
    (ratio : Option ℝ) (percentage : ℝ) (region_of_interest : String)
    (region_points : List ℝ) : Except PyErr (List ℝ) :=
  match rawFactor line method beta ratio percentage region_points with
  | .error e => .error e
  | .ok raw =>
      .ok (List.zipWith (fun f t => f * (1 - t) + t) raw
        (transArr region_of_interest method line.length))

/-- The per-point deformation of the main loop of change_area (lines 236-251):
`v1 = line[id] - p`, `v2 = v1 * (1 - factor[id])`, new position `p + v2`, new
radius `r * factor[id]`, with `id` the nearest centerline sample. -/
noncomputable def deformPoint (line : List CLPoint) (factor : List ℝ) (p : VPoint) : VPoint :=
  ⟨p.pos.add (Point3.smul (1 - factor.getD (nearestId line p.pos) 0)
      ((line.getD (nearestId line p.pos) default).pos.sub p.pos)),
   p.radius * factor.getD (nearestId line p.pos) 0⟩

/-- The rigid displacement applied to one diverging branch (change_area lines
257-262): computed once from the first point of the branch centerline. -/
noncomputable def branchDisp (line : List CLPoint) (factor : List ℝ) (b : Branch) : Point3 :=
  Point3.smul (1 - factor.getD (nearestId line b.attachment) 0)
    ((line.getD (nearestId line b.attachment) default).pos.sub b.attachment)

open Classical in
/-- change_area (manipulate_area.py lines 192-280).  The output collects the
deformed main points in input order followed by each branch cloud, branches in
supplied order and each branch in its internal order, exactly as the successive
InsertNextPoint calls do.  When the main diagram is empty but a diverging
centerline is present, line 255 reads the loop variable `i` of a loop that never
ran, a NameError. -/
noncomputable def change_area (voronoi : List VPoint) (line : List CLPoint)
    (method : String) (beta : ℝ) (ratio : Option ℝ) (percentage : ℝ)
    (region_of_interest : String) (region_points : List ℝ)
    (branches : List Branch) : Except PyErr (List VPoint) :=
  match get_factor line method beta ratio percentage region_of_interest region_points with
  | .error e => .error e
  | .ok factor =>
      if branches ≠ [] ∧ voronoi = [] then .error .nameError
      else
        .ok (voronoi.map (deformPoint line factor) ++
          branches.flatMap fun b =>
            b.cloud.map fun p => ⟨p.pos.add (branchDisp line factor b), p.radius⟩)

/-- The transition-weight schedule exactly as claim C2 states it, for comparison
with the one the code computes: k = round(0.10 N) samples reserved at each end
for every method — both ends, unless the region mode is first_line, in which case
only the trailing end — with weight 1 at the segment boundary decreasing linearly
to 0 at the interior. -/
noncomputable def claimTransC2 (region_of_interest : String) (n : ℕ) : List ℝ :=
  if region_of_interest = "first_line" then
    List.replicate (n - kOf n) 0 ++ linspace 0 1 (kOf n)
  else
    linspace 1 0 (kOf n) ++ List.replicate (n - 2 * kOf n) 0 ++ linspace 0 1 (kOf n)

/-- A one-sample centerline used as concrete test input. -/
noncomputable def exLine : List CLPoint := [⟨⟨0, 0, 0⟩, 4⟩]

/-- A one-point main Voronoi cloud used as concrete test input. -/
noncomputable def exCloud : List VPoint := [⟨⟨1, 0, 0⟩, 2⟩]

/-- A one-point diverging branch used as concrete test input. -/
noncomputable def exBranch : Branch := ⟨⟨0, 1, 0⟩, [⟨⟨0, 2, 0⟩, 3⟩]⟩

/-- A three-sample centerline used as concrete test input. -/
noncomputable def exLine3 : List CLPoint := List.replicate 3 ⟨⟨0, 0, 0⟩, 1⟩

/-- A thirty-sample centerline used as concrete test input. -/
noncomputable def exLine30 : List CLPoint := List.replicate 30 ⟨⟨0, 0, 0⟩, 1⟩

/-- A one-sample centerline with section area 5, used as concrete test input. -/
noncomputable def exLineA5 : List CLPoint := [⟨⟨0, 0, 0⟩, 5⟩]

/-! ### Basic lemmas about the embedded helpers -/

theorem linspace_length (a b : ℝ) (k : ℕ) : (linspace a b k).length = k := by
  rw [linspace, List.length_map, List.length_range]

theorem kOf_le (n : ℕ) : kOf n ≤ n := by
  unfold kOf; split_ifs <;> omega

theorem two_kOf_le (n : ℕ) : 2 * kOf n ≤ n := by
  unfold kOf; split_ifs <;> omega

theorem transArr_length (roi method : String) (n : ℕ) :
    (transArr roi method n).length = n := by
  have h1 := kOf_le n
  have h2 := two_kOf_le n
  unfold transArr
  split_ifs <;>
    simp [linspace_length, List.length_append, List.length_replicate] <;> omega

theorem smoothOnce_length (a : List ℝ) : (smoothOnce a).length = a.length := by
  rw [smoothOnce, List.length_map, List.length_range]

theorem smoothedArea_length (line : List CLPoint) :
    (smoothedArea line).length = line.length := by
  rw [smoothedArea, smoothOnce_length, smoothOnce_length, List.length_map]

theorem curvilinear_length (line : List CLPoint) :
    (curvilinear line).length = line.length := by
  rw [curvilinear, List.length_map, List.length_range]

theorem getD_map_lt {α β : Type} (f : α → β) (l : List α) (i : ℕ) (h : i < l.length)
    (d : β) (e : α) : (l.map f).getD i d = f (l.getD i e) := by
  rw [List.getD_eq_getElem _ _ (by simpa using h), List.getD_eq_getElem _ _ h]
  simp

theorem getD_replicate_lt {α : Type} (c d : α) (n i : ℕ) (h : i < n) :
    (List.replicate n c).getD i d = c := by
  rw [List.getD_eq_getElem _ _ (by simpa using h)]
  simp

theorem getD_range_lt (n i : ℕ) (h : i < n) : (List.range n).getD i 0 = i := by
  rw [List.getD_eq_getElem _ _ (by simpa using h)]
  simp

theorem nearestId_lt (line : List CLPoint) (p : Point3) (h : line ≠ []) :
    nearestId line p < line.length := by
  have h0 : 0 < line.length := List.length_pos.mpr h
  rw [nearestId]
  have key : ∀ (l : List ℕ) (b : ℕ), b < line.length → (∀ i ∈ l, i < line.length) →
      (l.foldl (fun best i =>
        if sqDist (line.getD i default).pos p < sqDist (line.getD best default).pos p then i
        else best) b) < line.length := by
    intro l
    induction l with
    | nil => intro b hb _; simpa using hb
    | cons hd tl ih =>
        intro b hb hmem
        simp only [List.foldl_cons]
        apply ih
        · split_ifs
          · exact hmem hd (by simp)
          · exact hb
        · intro i hi; exact hmem i (by simp [hi])
  exact key _ 0 h0 (fun i hi => List.mem_range.mp hi)

theorem nearestId_singleton (c : CLPoint) (p : Point3) : nearestId [c] p = 0 := by
  rw [nearestId]
  simp [List.range_succ, List.range_zero, List.foldl_cons, List.foldl_nil, ite_self]

theorem blend_ones (tr : List ℝ) :
    List.zipWith (fun f t => f * (1 - t) + t) (List.replicate tr.length 1) tr
      = List.replicate tr.length 1 := by
  induction tr with
  | nil => rfl
  | cons t ts ih =>
      simp only [List.length_cons, List.replicate_succ, List.zipWith_cons_cons, ih]
      norm_num

/-! ### Unfolding lemmas for rawFactor and get_factor -/

theorem rawFactor_area (line : List CLPoint) (beta : ℝ) (ratio : Option ℝ)
    (percentage : ℝ) (rp : List ℝ) :
    rawFactor line "area" beta ratio percentage rp
      = .ok (List.replicate line.length (1 + percentage * 0.01)) := by
  rw [rawFactor.eq_def, if_neg (by decide : ¬ ("area" : String) = "variation"),
    if_neg (by decide : ¬ ("area" : String) = "stenosis"), if_pos rfl]

theorem rawFactor_stenosis_one (line : List CLPoint) (beta : ℝ) (ratio : Option ℝ)
    (percentage : ℝ) (rp : List ℝ) (h : rp.length = 3) :
    rawFactor line "stenosis" beta ratio percentage rp
      = .ok ((linspace 0 Real.pi line.length).map fun t =>
          1 - Real.sin t * percentage * 0.01) := by
  rw [rawFactor.eq_def, if_neg (by decide : ¬ ("stenosis" : String) = "variation"),
    if_pos rfl, if_pos h]

theorem rawFactor_variation_none (line : List CLPoint) (beta : ℝ)
    (percentage : ℝ) (rp : List ℝ) :
    rawFactor line "variation" beta none percentage rp
      = .ok ((smoothedArea line).map fun a => (a / meanArea line) ^ beta) := by
  rw [rawFactor.eq_def, if_pos rfl]

theorem rawFactor_unknown (line : List CLPoint) (method : String) (beta : ℝ)
    (ratio : Option ℝ) (percentage : ℝ) (rp : List ℝ)
    (h1 : method ≠ "variation") (h2 : method ≠ "stenosis") (h3 : method ≠ "area") :
    rawFactor line method beta ratio percentage rp = .error .unboundLocalError := by
  rw [rawFactor.eq_def, if_neg h1, if_neg h2, if_neg h3]

theorem get_factor_of_raw (line : List CLPoint) (method : String) (beta : ℝ)
    (ratio : Option ℝ) (percentage : ℝ) (roi : String) (rp : List ℝ) (raw : List ℝ)
    (h : rawFactor line method beta ratio percentage rp = .ok raw) :
    get_factor line method beta ratio percentage roi rp
      = .ok (List.zipWith (fun f t => f * (1 - t) + t) raw (transArr roi method line.length)) := by
  rw [get_factor, h]

theorem get_factor_of_raw_error (line : List CLPoint) (method : String) (beta : ℝ)
    (ratio : Option ℝ) (percentage : ℝ) (roi : String) (rp : List ℝ) (e : PyErr)
    (h : rawFactor line method beta ratio percentage rp = .error e) :
    get_factor line method beta ratio percentage roi rp = .error e := by
  rw [get_factor, h]

theorem get_factor_ok_exists_raw (line : List CLPoint) (method : String) (beta : ℝ)
    (ratio : Option ℝ) (percentage : ℝ) (roi : String) (rp : List ℝ) (factor : List ℝ)
    (h : get_factor line method beta ratio percentage roi rp = .ok factor) :
    ∃ raw, rawFactor line method beta ratio percentage rp = .ok raw ∧
      factor = List.zipWith (fun f t => f * (1 - t) + t) raw
        (transArr roi method line.length) := by
  rw [get_factor] at h
  cases hr : rawFactor line method beta ratio percentage rp with
  | error e => rw [hr] at h; exact absurd h (by simp)
  | ok raw =>
      rw [hr] at h
      exact ⟨raw, rfl, by injection h with h1; exact h1.symm⟩

/-! ### Evaluation lemmas on the concrete test inputs -/

theorem transArr_manual_area_one : transArr "manual" "area" 1 = [0] := by
  rw [transArr, if_neg (by decide : ¬ ("manual" : String) = "first_line"),
    if_pos ⟨Or.inl rfl, Or.inl rfl⟩]
  have hk : kOf 1 = 0 := by decide
  rw [hk, linspace, linspace]
  simp

theorem transArr_no_ramp (roi method : String) (n : ℕ)
    (hfl : roi ≠ "first_line")
    (h : ¬ ((roi = "manual" ∨ roi = "commandline") ∧ (method = "area" ∨ method = "variation"))) :
    transArr roi method n = List.replicate n 0 := by
  rw [transArr, if_neg hfl, if_neg h]

theorem zipWith_blend_zeros (raw : List ℝ) (n : ℕ) (h : raw.length = n) :
    List.zipWith (fun f t => f * (1 - t) + t) raw (List.replicate n 0) = raw := by
  subst h
  induction raw with
  | nil => rfl
  | cons x xs ih =>
      simp only [List.length_cons, List.replicate_succ, List.zipWith_cons_cons, ih]
      norm_num

theorem ex_gf : get_factor exLine "area" 0 none 50 "manual" [] = .ok [3 / 2] := by
  rw [get_factor_of_raw _ _ _ _ _ _ _ _ (rawFactor_area exLine 0 none 50 [])]
  have hlen : exLine.length = 1 := by rw [exLine]; rfl
  rw [hlen, transArr_manual_area_one]
  norm_num

theorem change_area_eq_of_gf (voronoi : List VPoint) (line : List CLPoint)
    (method : String) (beta : ℝ) (ratio : Option ℝ) (percentage : ℝ)
    (roi : String) (rp : List ℝ) (branches : List Branch) (factor : List ℝ)
    (h : get_factor line method beta ratio percentage roi rp = .ok factor)
    (hne : ¬ (branches ≠ [] ∧ voronoi = [])) :
    change_area voronoi line method beta ratio percentage roi rp branches
      = .ok (voronoi.map (deformPoint line factor) ++
          branches.flatMap fun b =>
            b.cloud.map fun p => ⟨p.pos.add (branchDisp line factor b), p.radius⟩) := by
  rw [change_area.eq_def, h]
  exact if_neg hne

theorem change_area_guard (voronoi : List VPoint) (line : List CLPoint)
    (method : String) (beta : ℝ) (ratio : Option ℝ) (percentage : ℝ)
    (roi : String) (rp : List ℝ) (branches : List Branch) (factor : List ℝ)
    (h : get_factor line method beta ratio percentage roi rp = .ok factor)
    (hg : branches ≠ [] ∧ voronoi = []) :
    change_area voronoi line method beta ratio percentage roi rp branches
      = .error .nameError := by
  rw [change_area.eq_def, h]
  exact if_pos hg

theorem change_area_of_gf_error (voronoi : List VPoint) (line : List CLPoint)
    (method : String) (beta : ℝ) (ratio : Option ℝ) (percentage : ℝ)
    (roi : String) (rp : List ℝ) (branches : List Branch) (e : PyErr)
    (h : get_factor line method beta ratio percentage roi rp = .error e) :
    change_area voronoi line method beta ratio percentage roi rp branches
      = .error e := by
  rw [change_area.eq_def, h]

theorem ex_change :
    change_area exCloud exLine "area" 0 none 50 "manual" [] [exBranch]
      = .ok [⟨⟨3 / 2, 0, 0⟩, 3⟩, ⟨⟨0, 5 / 2, 0⟩, 3⟩] := by
  rw [change_area_eq_of_gf _ _ _ _ _ _ _ _ _ _ ex_gf (by rw [exCloud]; simp)]
  rw [exCloud, exBranch, exLine]
  simp only [List.map_cons, List.map_nil, List.flatMap_cons, List.flatMap_nil,
    deformPoint, branchDisp, nearestId_singleton, Point3.add, Point3.sub, Point3.smul,
    List.append_nil, List.getD_cons_zero]
  norm_num

open Classical in
/-- Unfolding of the ratio branch of the variation method. -/
theorem rawFactor_variation_some (line : List CLPoint) (beta r percentage : ℝ)
    (rp : List ℝ) :
    rawFactor line "variation" beta (some r) percentage rp
      = (if smoothedArea line = [] then .error .valueError
         else if r ≤ 0 then .error .valueError
         else if lmax (smoothedArea line) / lmin (smoothedArea line) ≤ 0 then
           .error .valueError
         else if lmax (smoothedArea line) / lmin (smoothedArea line) = 1 then
           .error .zeroDivisionError
         else
           .ok ((smoothedArea line).map fun a =>
             (a / meanArea line) ^
               (0.5 * (Real.log r /
                 Real.log (lmax (smoothedArea line) / lmin (smoothedArea line)) - 1)))) := by
  rw [rawFactor.eq_def, if_pos rfl]

open Classical in
/-- Unfolding of the two-point stenosis branch. -/
theorem rawFactor_stenosis_two (line : List CLPoint) (beta : ℝ) (ratio : Option ℝ)
    (percentage : ℝ) (rp : List ℝ) (h6 : rp.length = 6) :
    rawFactor line "stenosis" beta ratio percentage rp
      = (if line.length = 0 then .error .indexError
         else .ok ((List.range line.length).map fun i =>
           Real.sqrt (((smoothedArea line).getD 0 0 +
             ((smoothedArea line).getD (line.length - 1) 0 - (smoothedArea line).getD 0 0) *
               ((curvilinear line).getD i 0 / lmax (curvilinear line))) /
             (smoothedArea line).getD i 0))) := by
  rw [rawFactor.eq_def, if_neg (by decide : ¬ ("stenosis" : String) = "variation"),
    if_pos rfl, if_neg (by omega : ¬ rp.length = 3), if_pos h6]

theorem rawFactor_stenosis_other (line : List CLPoint) (beta : ℝ) (ratio : Option ℝ)
    (percentage : ℝ) (rp : List ℝ) (h3 : rp.length ≠ 3) (h6 : rp.length ≠ 6) :
    rawFactor line "stenosis" beta ratio percentage rp = .error .unboundLocalError := by
  rw [rawFactor.eq_def, if_neg (by decide : ¬ ("stenosis" : String) = "variation"),
    if_pos rfl, if_neg h3, if_neg h6]

theorem rawFactor_ok_length (line : List CLPoint) (method : String) (beta : ℝ)
    (ratio : Option ℝ) (percentage : ℝ) (rp : List ℝ) (raw : List ℝ)
    (h : rawFactor line method beta ratio percentage rp = .ok raw) :
    raw.length = line.length := by
  by_cases hv : method = "variation"
  · subst hv
    cases ratio with
    | none =>
        rw [rawFactor_variation_none] at h
        injection h with h
        rw [← h, List.length_map, smoothedArea_length]
    | some r =>
        rw [rawFactor_variation_some] at h
        split_ifs at h
        injection h with h
        rw [← h, List.length_map, smoothedArea_length]
  · by_cases hs : method = "stenosis"
    · subst hs
      by_cases h3 : rp.length = 3
      · rw [rawFactor_stenosis_one _ _ _ _ _ h3] at h
        injection h with h
        rw [← h, List.length_map, linspace_length]
      · by_cases h6 : rp.length = 6
        · rw [rawFactor_stenosis_two _ _ _ _ _ h6] at h
          split_ifs at h
          injection h with h
          rw [← h, List.length_map, List.length_range]
        · rw [rawFactor_stenosis_other _ _ _ _ _ h3 h6] at h
          exact absurd h (by simp)
    · by_cases ha : method = "area"
      · subst ha
        rw [rawFactor_area] at h
        injection h with h
        rw [← h, List.length_replicate]
      · rw [rawFactor_unknown _ _ _ _ _ _ hv hs ha] at h
        exact absurd h (by simp)

/-! ### Claim theorems -/

/-- C6: for every centerline and every method / region-mode / parameter combination
on which the factor computation returns a factor field, the length of that field
equals the number of centerline samples, aligned one factor per sample by index. -/
theorem C6_factor_field_length (line : List CLPoint) (method : String) (beta : ℝ)
    (ratio : Option ℝ) (percentage : ℝ) (roi : String) (rp : List ℝ) (factor : List ℝ)
    (h : get_factor line method beta ratio percentage roi rp = .ok factor) :
    factor.length = line.length := by
  obtain ⟨raw, hraw, rfl⟩ := get_factor_ok_exists_raw _ _ _ _ _ _ _ _ h
  rw [List.length_zipWith, rawFactor_ok_length _ _ _ _ _ _ _ hraw, transArr_length,
    Nat.min_self]

/-- Witness for C6 at a concrete input. -/
theorem C6_witness : ([3 / 2] : List ℝ).length = exLine.length :=
  C6_factor_field_length exLine "area" 0 none 50 "manual" [] [3 / 2] ex_gf

/-- Every point is fixed by the deformation when all factors are 1. -/
theorem deformPoint_ones (line : List CLPoint) (p : VPoint) (h : line ≠ []) :
    deformPoint line (List.replicate line.length 1) p = p := by
  rw [deformPoint,
    getD_replicate_lt _ _ _ _ (nearestId_lt line p.pos h)]
  cases p with
  | mk pos radius =>
      cases pos
      simp [Point3.add, Point3.smul, Point3.sub]

/-- C7: for method "area" with percentage 0 the factor at every sample is 1 and the
deformed main cloud equals the input cloud exactly, positions and radii unchanged. -/
theorem C7_area_zero_percentage_identity (voronoi : List VPoint) (line : List CLPoint)
    (beta : ℝ) (ratio : Option ℝ) (roi : String) (rp : List ℝ) (h : line ≠ []) :
    change_area voronoi line "area" beta ratio 0 roi rp [] = .ok voronoi := by
  have hraw := rawFactor_area line beta ratio 0 rp
  norm_num at hraw
  have hgf := get_factor_of_raw _ _ _ _ _ roi _ _ hraw
  have hfac : List.zipWith (fun f t => f * (1 - t) + t)
      (List.replicate line.length 1) (transArr roi "area" line.length)
      = List.replicate line.length 1 := by
    have hb := blend_ones (transArr roi "area" line.length)
    rwa [transArr_length] at hb
  rw [hfac] at hgf
  rw [change_area_eq_of_gf _ _ _ _ _ _ _ _ _ _ hgf (by simp)]
  simp only [List.flatMap_nil, List.append_nil]
  congr 1
  calc voronoi.map (deformPoint line (List.replicate line.length 1))
      = voronoi.map id := List.map_congr_left fun p _ => deformPoint_ones line p h
    _ = voronoi := List.map_id voronoi

/-- Witness for C7 at a concrete input. -/
theorem C7_witness : change_area exCloud exLine "area" 5 none 0 "manual" [] [] = .ok exCloud :=
  C7_area_zero_percentage_identity exCloud exLine 5 none "manual" []
    (by rw [exLine]; simp)

/-- C10: with method "variation" and a ratio supplied, the returned factor field does
not depend on the beta argument: the solved beta overwrites it before use. -/
theorem C10_beta_ignored_when_ratio_given (line : List CLPoint) (b1 b2 r percentage : ℝ)
    (roi : String) (rp : List ℝ) :
    get_factor line "variation" b1 (some r) percentage roi rp
      = get_factor line "variation" b2 (some r) percentage roi rp := by
  unfold get_factor
  rw [rawFactor_variation_some line b1 r percentage rp,
    rawFactor_variation_some line b2 r percentage rp]

/-- Counterexample to C9: an unknown region mode is not rejected at all — the factor
computation accepts it silently (here with method "area") and returns a factor
field, so no ConfigurationError is raised. -/
theorem C9_counterexample :
    get_factor exLine3 "area" 0 none 50 "bogus" [] = .ok [3 / 2, 3 / 2, 3 / 2] := by
  rw [get_factor_of_raw _ _ _ _ _ _ _ _ (rawFactor_area exLine3 0 none 50 [])]
  have hlen : exLine3.length = 3 := by rw [exLine3]; simp
  rw [hlen, transArr_no_ramp _ _ _ (by decide) (by decide)]
  have hz := zipWith_blend_zeros (List.replicate 3 (1 + 50 * 0.01)) 3 (by simp)
  rw [hz]
  norm_num [List.replicate]

/-- C9 amended: an unknown method name is not rejected up front either; get_factor
falls through every branch and the code raises UnboundLocalError at the return. -/
theorem C9_amended_unknown_method (line : List CLPoint) (method : String) (beta : ℝ)
    (ratio : Option ℝ) (percentage : ℝ) (roi : String) (rp : List ℝ)
    (h1 : method ≠ "variation") (h2 : method ≠ "stenosis") (h3 : method ≠ "area") :
    get_factor line method beta ratio percentage roi rp
      = .error PyErr.unboundLocalError :=
  get_factor_of_raw_error _ _ _ _ _ _ _ _
    (rawFactor_unknown _ _ _ _ _ _ h1 h2 h3)

/-- Witness for the amended C9 at a concrete input. -/
theorem C9_amended_witness :
    get_factor exLine "frobnicate" 0 none 50 "manual" []
      = .error PyErr.unboundLocalError :=
  C9_amended_unknown_method exLine "frobnicate" 0 none 50 "manual" []
    (by decide) (by decide) (by decide)

theorem gNorm_pos : 0 < gNorm := by
  apply Finset.sum_pos (fun j _ => Real.exp_pos _)
  exact ⟨0, by simp⟩

theorem reflectIdx_one (z : ℤ) : reflectIdx 1 z = 0 := by
  rw [reflectIdx]
  have h0 : (0 : ℤ) ≤ z % 2 := Int.emod_nonneg z (by norm_num)
  have h2 : z % 2 < 2 := Int.emod_lt_of_pos z (by norm_num)
  have hm : (z % (2 * ((1 : ℕ) : ℤ))).toNat < 2 := by
    simp only [Nat.cast_one, mul_one]
    omega
  simp only [one_ne_zero, if_false]
  split_ifs with h <;> omega

/-- The Gaussian filter fixes one-element arrays: the normalised kernel sums to 1. -/
theorem smoothOnce_singleton (c : ℝ) : smoothOnce [c] = [c] := by
  rw [smoothOnce]
  simp only [List.length_singleton, reflectIdx_one, List.getD_cons_zero]
  have hsum : ∑ j in Finset.Icc (-20 : ℤ) 20, gWeight j / gNorm * c = c := by
    rw [show (fun j => gWeight j / gNorm * c) = fun j => gWeight j * c / gNorm by
      funext j; ring]
    rw [← Finset.sum_div, ← Finset.sum_mul]
    show gNorm * c / gNorm = c
    rw [mul_comm, mul_div_assoc, div_self gNorm_pos.ne', mul_one]
  rw [hsum]
  simp

theorem lmax_singleton (x : ℝ) : lmax [x] = x := by rw [lmax]; rfl

theorem lmin_singleton (x : ℝ) : lmin [x] = x := by rw [lmin]; rfl

theorem smoothedArea_exLineA5 : smoothedArea exLineA5 = [5] := by
  rw [smoothedArea, show exLineA5.map CLPoint.sectionArea = [5] by rw [exLineA5]; rfl,
    smoothOnce_singleton, smoothOnce_singleton]

/-- Counterexample to C4: not every element of a returned factor field is positive,
and no error is raised for the non-positive value.  With method "stenosis", one
region point and percentage 200, the factor at the middle of a three-sample
segment is 1 - sin(pi/2) * 2 = -1, returned normally. -/
theorem C4_counterexample :
    get_factor exLine3 "stenosis" 0 none 200 "manual" [0, 0, 0] = .ok [1, -1, 1]
      ∧ ¬ (0 : ℝ) < -1 := by
  refine ⟨?_, by norm_num⟩
  rw [get_factor_of_raw _ _ _ _ _ _ _ _
    (rawFactor_stenosis_one exLine3 0 none 200 [0, 0, 0] (by simp))]
  have hlen : exLine3.length = 3 := by rw [exLine3]; simp
  rw [hlen, transArr_no_ramp _ _ _ (by decide) (by decide)]
  have hls : linspace 0 Real.pi 3 = [0, Real.pi / 2, Real.pi] := by
    rw [linspace]
    norm_num [List.range_succ]
    try ring_nf
  rw [hls]
  simp only [List.map_cons, List.map_nil, Real.sin_zero, Real.sin_pi,
    Real.sin_pi_div_two]
  have hz := zipWith_blend_zeros [1 - 0 * 200 * 0.01, 1 - 1 * 200 * 0.01,
    1 - 0 * 200 * 0.01] 3 (by simp)
  rw [hz]
  norm_num

/-- C4 amended: the factor computation validates nothing.  A degenerate input to the
ratio-solving step is not turned into a NumericalError: with `R_old = 1` the division
by `math.log(R_old)` raises a plain ZeroDivisionError (and a nonpositive ratio or
`R_old` a plain ValueError from math.log), while non-positive factor values — as in
the counterexample — are returned without any error. -/
theorem C4_amended_degenerate_ratio (line : List CLPoint) (beta percentage r : ℝ)
    (roi : String) (rp : List ℝ)
    (h1 : smoothedArea line ≠ [])
    (h2 : 0 < r)
    (h3 : lmax (smoothedArea line) = lmin (smoothedArea line))
    (h4 : lmin (smoothedArea line) ≠ 0) :
    get_factor line "variation" beta (some r) percentage roi rp
      = .error PyErr.zeroDivisionError := by
  apply get_factor_of_raw_error
  rw [rawFactor_variation_some]
  have hR : lmax (smoothedArea line) / lmin (smoothedArea line) = 1 := by
    rw [h3]; exact div_self h4
  rw [if_neg h1, if_neg (not_le.mpr h2),
    if_neg (show ¬ lmax (smoothedArea line) / lmin (smoothedArea line) ≤ 0 by
      rw [hR]; norm_num),
    if_pos hR]

/-- Witness for the amended C4 at a concrete input. -/
theorem C4_amended_witness :
    get_factor exLineA5 "variation" 0 (some 2) 50 "manual" []
      = .error PyErr.zeroDivisionError :=
  C4_amended_degenerate_ratio exLineA5 0 50 2 "manual" []
    (by rw [smoothedArea_exLineA5]; simp)
    (by norm_num)
    (by rw [smoothedArea_exLineA5, lmax_singleton, lmin_singleton])
    (by rw [smoothedArea_exLineA5, lmin_singleton]; norm_num)

/-- Counterexample to C2: the reserved linear ramp is not applied for every method.
With method "stenosis" (region mode "manual", 30 samples, percentage 100) the code
uses an all-zero transition array, so the factor at sample 1 is the raw value
1 - sin(pi/29), whereas the claimed ramp weight at sample 1 is 1/2 and would force
the blended value raw * (1 - 1/2) + 1/2, which differs from it. -/
theorem C2_counterexample :
    (get_factor exLine30 "stenosis" 0 none 100 "manual" [0, 0, 0]).toOption.map
        (fun l => l.getD 1 0) = some (1 - Real.sin (Real.pi / 29))
    ∧ (claimTransC2 "manual" 30).getD 1 0 = 1 / 2
    ∧ transArr "manual" "stenosis" 30 = List.replicate 30 0
    ∧ 1 - Real.sin (Real.pi / 29)
        ≠ (1 - Real.sin (Real.pi / 29)) * (1 - 1 / 2) + 1 / 2 := by
  have hlen30 : exLine30.length = 30 := by rw [exLine30]; simp
  refine ⟨?_, ?_, transArr_no_ramp _ _ _ (by decide) (by decide), ?_⟩
  · have hraw := rawFactor_stenosis_one exLine30 0 none 100 [0, 0, 0] (by simp)
    have hgf := get_factor_of_raw _ _ _ _ _ "manual" _ _ hraw
    rw [hlen30] at hgf
    rw [transArr_no_ramp _ _ _ (by decide) (by decide)] at hgf
    rw [zipWith_blend_zeros _ 30 (by rw [List.length_map, linspace_length])] at hgf
    rw [hgf]
    have h1 : ((linspace 0 Real.pi 30).map fun t => 1 - Real.sin t * 100 * 0.01).getD 1 0
        = 1 - Real.sin (Real.pi / 29) := by
      rw [getD_map_lt _ _ 1 (by rw [linspace_length]; norm_num) _ 0]
      have h2 : (linspace 0 Real.pi 30).getD 1 0 = Real.pi / 29 := by
        rw [linspace, getD_map_lt _ _ 1 (by simp) _ 0, getD_range_lt 30 1 (by norm_num)]
        norm_num
      rw [h2]
      norm_num
      try ring
    rw [Except.toOption, Option.map, h1]
  · have hk30 : kOf 30 = 3 := by decide
    rw [claimTransC2, if_neg (by decide : ¬ ("manual" : String) = "first_line"), hk30]
    rw [List.getD_append _ _ _ _ (by rw [List.length_append, linspace_length]; norm_num),
      List.getD_append _ _ _ _ (by rw [linspace_length]; norm_num)]
    rw [linspace, getD_map_lt _ _ 1 (by simp) _ 0, getD_range_lt 3 1 (by norm_num)]
    norm_num
  · intro h
    have hs : 0 < Real.sin (Real.pi / 29) :=
      Real.sin_pos_of_pos_of_lt_pi (by positivity)
        (div_lt_self Real.pi_pos (by norm_num))
    nlinarith [h]

open Classical in
/-- C2 amended: whenever the factor computation succeeds, the returned field is the
raw method factor blended as rawFactor * (1 - w) + 1 * w against a transition-weight
array; that array is the claimed ramp (k = round(0.10 N) reserved samples, both ends,
weight 1 at the boundary falling linearly to 0 at the interior) exactly when the
region mode is manual or commandline and the method is area or variation, or — with
only the trailing end ramped — when the region mode is first_line; for every other
combination (for example method "stenosis") all weights are zero and no blending
takes place. -/
theorem C2_amended_transition (line : List CLPoint) (method : String) (beta : ℝ)
    (ratio : Option ℝ) (percentage : ℝ) (roi : String) (rp : List ℝ) (factor : List ℝ)
    (h : get_factor line method beta ratio percentage roi rp = .ok factor) :
    (∃ raw, rawFactor line method beta ratio percentage rp = .ok raw ∧
      factor = List.zipWith (fun f t => f * (1 - t) + t) raw
        (transArr roi method line.length))
    ∧ transArr roi method line.length =
        (if roi = "first_line"
            ∨ ((roi = "manual" ∨ roi = "commandline") ∧ (method = "area" ∨ method = "variation"))
         then claimTransC2 roi line.length
         else List.replicate line.length 0) := by
  refine ⟨get_factor_ok_exists_raw _ _ _ _ _ _ _ _ h, ?_⟩
  by_cases hfl : roi = "first_line"
  · rw [if_pos (Or.inl hfl), transArr, if_pos hfl, claimTransC2, if_pos hfl]
  · by_cases hc : (roi = "manual" ∨ roi = "commandline") ∧ (method = "area" ∨ method = "variation")
    · rw [if_pos (Or.inr hc), transArr, if_neg hfl, if_pos hc, claimTransC2, if_neg hfl]
    · rw [if_neg (by tauto), transArr, if_neg hfl, if_neg hc]

open Classical in
/-- Witness for the amended C2 at a concrete input. -/
theorem C2_amended_witness :
    (∃ raw, rawFactor exLine "area" 0 none 50 [] = .ok raw ∧
      ([3 / 2] : List ℝ) = List.zipWith (fun f t => f * (1 - t) + t) raw
        (transArr "manual" "area" exLine.length))
    ∧ transArr "manual" "area" exLine.length =
        (if ("manual" : String) = "first_line"
            ∨ ((("manual" : String) = "manual" ∨ ("manual" : String) = "commandline")
                ∧ (("area" : String) = "area" ∨ ("area" : String) = "variation"))
         then claimTransC2 "manual" exLine.length
         else List.replicate exLine.length 0) :=
  C2_amended_transition exLine "area" 0 none 50 "manual" [] [3 / 2] ex_gf

/-- C3: for method "variation" the raw factor at each sample is
(area_i / meanArea) ^ beta over the area array smoothed twice by the symmetric
Gaussian kernel, with meanArea the mean of the smoothed array; when a ratio is
supplied, beta is replaced by the single closed-form solve
0.5 * (ln(ratio) / ln(R_old) - 1) with R_old = max(area) / min(area), with no
iterative refinement (every non-error outcome is exactly the closed-form field). -/
theorem C3_variation_factor_formula (line : List CLPoint) (beta percentage : ℝ)
    (roi : String) (rp : List ℝ) :
    (get_factor line "variation" beta none percentage roi rp
        = .ok (List.zipWith (fun f t => f * (1 - t) + t)
            ((smoothedArea line).map fun a => (a / meanArea line) ^ beta)
            (transArr roi "variation" line.length)))
    ∧ (∀ r : ℝ,
        (∃ e, get_factor line "variation" beta (some r) percentage roi rp = .error e)
        ∨ get_factor line "variation" beta (some r) percentage roi rp
            = .ok (List.zipWith (fun f t => f * (1 - t) + t)
                ((smoothedArea line).map fun a =>
                  (a / meanArea line) ^
                    (0.5 * (Real.log r /
                      Real.log (lmax (smoothedArea line) / lmin (smoothedArea line)) - 1)))
                (transArr roi "variation" line.length)))
    ∧ smoothedArea line = smoothOnce (smoothOnce (line.map CLPoint.sectionArea))
    ∧ meanArea line = lmean (smoothedArea line)
    ∧ (∀ j : ℤ, gWeight (-j) = gWeight j) := by
  refine ⟨?_, ?_, rfl, rfl, fun j => by rw [gWeight, gWeight]; push_cast; ring_nf⟩
  · exact get_factor_of_raw _ _ _ _ _ _ _ _ (rawFactor_variation_none line beta percentage rp)
  · intro r
    by_cases h1 : smoothedArea line = []
    · exact Or.inl ⟨.valueError, get_factor_of_raw_error _ _ _ _ _ _ _ _
        (by rw [rawFactor_variation_some, if_pos h1])⟩
    by_cases h2 : r ≤ 0
    · exact Or.inl ⟨.valueError, get_factor_of_raw_error _ _ _ _ _ _ _ _
        (by rw [rawFactor_variation_some, if_neg h1, if_pos h2])⟩
    by_cases h3 : lmax (smoothedArea line) / lmin (smoothedArea line) ≤ 0
    · exact Or.inl ⟨.valueError, get_factor_of_raw_error _ _ _ _ _ _ _ _
        (by rw [rawFactor_variation_some, if_neg h1, if_neg h2, if_pos h3])⟩
    by_cases h4 : lmax (smoothedArea line) / lmin (smoothedArea line) = 1
    · exact Or.inl ⟨.zeroDivisionError, get_factor_of_raw_error _ _ _ _ _ _ _ _
        (by rw [rawFactor_variation_some, if_neg h1, if_neg h2, if_neg h3, if_pos h4])⟩
    · exact Or.inr (get_factor_of_raw _ _ _ _ _ _ _ _
        (by rw [rawFactor_variation_some, if_neg h1, if_neg h2, if_neg h3, if_neg h4]))

/-- C1: each output point of the main region comes from the corresponding input
point p via newPosition = p + (centerline[id] - p) * (1 - factor[id]) and
newRadius = p.radius * factor[id], where id is the nearest centerline sample to p;
in particular newRadius / oldRadius equals factor[id] exactly when the old radius
is nonzero. -/
theorem C1_main_cloud_deformation (voronoi : List VPoint) (line : List CLPoint)
    (method : String) (beta : ℝ) (ratio : Option ℝ) (percentage : ℝ)
    (roi : String) (rp : List ℝ) (branches : List Branch) (factor : List ℝ)
    (out : List VPoint)
    (hf : get_factor line method beta ratio percentage roi rp = .ok factor)
    (hc : change_area voronoi line method beta ratio percentage roi rp branches = .ok out)
    (i : ℕ) (hi : i < voronoi.length) :
    out.getD i default
      = ⟨(voronoi.getD i default).pos.add
          (Point3.smul (1 - factor.getD (nearestId line (voronoi.getD i default).pos) 0)
            ((line.getD (nearestId line (voronoi.getD i default).pos) default).pos.sub
              (voronoi.getD i default).pos)),
         (voronoi.getD i default).radius
           * factor.getD (nearestId line (voronoi.getD i default).pos) 0⟩
    ∧ ((voronoi.getD i default).radius ≠ 0 →
        (out.getD i default).radius / (voronoi.getD i default).radius
          = factor.getD (nearestId line (voronoi.getD i default).pos) 0) := by
  by_cases hg : branches ≠ [] ∧ voronoi = []
  · rw [change_area_guard _ _ _ _ _ _ _ _ _ _ hf hg] at hc
    exact absurd hc (by simp)
  · rw [change_area_eq_of_gf _ _ _ _ _ _ _ _ _ _ hf hg] at hc
    injection hc with hc
    have hmap : out.getD i default = deformPoint line factor (voronoi.getD i default) := by
      rw [← hc, List.getD_append _ _ _ _ (by rw [List.length_map]; exact hi),
        getD_map_lt _ _ _ hi _ default]
    refine ⟨by rw [hmap, deformPoint], ?_⟩
    intro hr
    rw [hmap]
    show (deformPoint line factor (voronoi.getD i default)).radius
        / (voronoi.getD i default).radius = _
    rw [deformPoint]
    exact mul_div_cancel_left₀ _ hr

/-- Witness for C1 at a concrete input. -/
theorem C1_witness :
    ([⟨⟨3 / 2, 0, 0⟩, 3⟩, ⟨⟨0, 5 / 2, 0⟩, 3⟩] : List VPoint).getD 0 default
      = ⟨(exCloud.getD 0 default).pos.add
          (Point3.smul (1 - ([3 / 2] : List ℝ).getD (nearestId exLine (exCloud.getD 0 default).pos) 0)
            ((exLine.getD (nearestId exLine (exCloud.getD 0 default).pos) default).pos.sub
              (exCloud.getD 0 default).pos)),
         (exCloud.getD 0 default).radius
           * ([3 / 2] : List ℝ).getD (nearestId exLine (exCloud.getD 0 default).pos) 0⟩
    ∧ ((exCloud.getD 0 default).radius ≠ 0 →
        (([⟨⟨3 / 2, 0, 0⟩, 3⟩, ⟨⟨0, 5 / 2, 0⟩, 3⟩] : List VPoint).getD 0 default).radius
            / (exCloud.getD 0 default).radius
          = ([3 / 2] : List ℝ).getD (nearestId exLine (exCloud.getD 0 default).pos) 0) :=
  C1_main_cloud_deformation exCloud exLine "area" 0 none 50 "manual" [] [exBranch]
    [3 / 2] _ ex_gf ex_change 0 (by rw [exCloud]; simp)

/-- C5: every point of a side-branch cloud appears in the output translated by the
one displacement vector (centerline[nearest(a)] - a) * (1 - factor[nearest(a)])
computed from the attachment point a (the first sample of the branch centerline),
the same for all points of the branch, and with its radius unchanged. -/
theorem C5_branch_rigid_translation (voronoi : List VPoint) (line : List CLPoint)
    (method : String) (beta : ℝ) (ratio : Option ℝ) (percentage : ℝ)
    (roi : String) (rp : List ℝ) (branches : List Branch) (factor : List ℝ)
    (out : List VPoint)
    (hf : get_factor line method beta ratio percentage roi rp = .ok factor)
    (hc : change_area voronoi line method beta ratio percentage roi rp branches = .ok out)
    (b : Branch) (hb : b ∈ branches) (p : VPoint) (hp : p ∈ b.cloud) :
    (⟨p.pos.add (Point3.smul (1 - factor.getD (nearestId line b.attachment) 0)
        ((line.getD (nearestId line b.attachment) default).pos.sub b.attachment)),
      p.radius⟩ : VPoint) ∈ out := by
  by_cases hg : branches ≠ [] ∧ voronoi = []
  · rw [change_area_guard _ _ _ _ _ _ _ _ _ _ hf hg] at hc
    exact absurd hc (by simp)
  · rw [change_area_eq_of_gf _ _ _ _ _ _ _ _ _ _ hf hg] at hc
    injection hc with hc
    rw [← hc]
    apply List.mem_append_right
    exact List.mem_flatMap.mpr ⟨b, hb, List.mem_map.mpr ⟨p, hp, by rw [branchDisp]⟩⟩

/-- Witness for C5 at a concrete input. -/
theorem C5_witness :
    (⟨(⟨⟨0, 2, 0⟩, 3⟩ : VPoint).pos.add
        (Point3.smul (1 - ([3 / 2] : List ℝ).getD (nearestId exLine exBranch.attachment) 0)
          ((exLine.getD (nearestId exLine exBranch.attachment) default).pos.sub
            exBranch.attachment)),
      (⟨⟨0, 2, 0⟩, 3⟩ : VPoint).radius⟩ : VPoint)
      ∈ ([⟨⟨3 / 2, 0, 0⟩, 3⟩, ⟨⟨0, 5 / 2, 0⟩, 3⟩] : List VPoint) :=
  C5_branch_rigid_translation exCloud exLine "area" 0 none 50 "manual" [] [exBranch]
    [3 / 2] _ ex_gf ex_change exBranch (by simp) ⟨⟨0, 2, 0⟩, 3⟩
    (by rw [exBranch]; simp)

/-- C8: the output cloud is exactly the deformed main cloud followed by the branch
clouds in supplied order, each branch in its internal order — so the output
cardinality is the main cardinality plus the sum of the branch cardinalities and
every output point corresponds to exactly one input point, with the positionradius
pairing given by the per-point transformation. -/
theorem C8_output_concatenation (voronoi : List VPoint) (line : List CLPoint)
    (method : String) (beta : ℝ) (ratio : Option ℝ) (percentage : ℝ)
    (roi : String) (rp : List ℝ) (branches : List Branch) (factor : List ℝ)
    (out : List VPoint)
    (hf : get_factor line method beta ratio percentage roi rp = .ok factor)
    (hc : change_area voronoi line method beta ratio percentage roi rp branches = .ok out) :
    out.length = voronoi.length + (branches.map fun b => b.cloud.length).sum
    ∧ out = voronoi.map (deformPoint line factor)
        ++ branches.flatMap fun b =>
             b.cloud.map fun p => ⟨p.pos.add (branchDisp line factor b), p.radius⟩ := by
  by_cases hg : branches ≠ [] ∧ voronoi = []
  · rw [change_area_guard _ _ _ _ _ _ _ _ _ _ hf hg] at hc
    exact absurd hc (by simp)
  · rw [change_area_eq_of_gf _ _ _ _ _ _ _ _ _ _ hf hg] at hc
    injection hc with hc
    refine ⟨?_, hc.symm⟩
    rw [← hc]
    rw [List.length_append, List.length_map, List.length_flatMap]
    congr 1
    apply congrArg
    exact List.map_congr_left fun b _ => by simp [Function.comp]

/-- Witness for C8 at a concrete input. -/
theorem C8_witness :
    ([⟨⟨3 / 2, 0, 0⟩, 3⟩, ⟨⟨0, 5 / 2, 0⟩, 3⟩] : List VPoint).length
        = exCloud.length + (([exBranch]).map fun b => b.cloud.length).sum
    ∧ ([⟨⟨3 / 2, 0, 0⟩, 3⟩, ⟨⟨0, 5 / 2, 0⟩, 3⟩] : List VPoint)
        = exCloud.map (deformPoint exLine [3 / 2])
          ++ ([exBranch]).flatMap fun b =>
               b.cloud.map fun p => ⟨p.pos.add (branchDisp exLine [3 / 2] b), p.radius⟩ :=
  C8_output_concatenation exCloud exLine "area" 0 none 50 "manual" [] [exBranch]
    [3 / 2] _ ex_gf ex_change

end Morphman
